import Mathlib

/-!
Shallow embedding of `src/main.py` (single-domain web crawler exposed
through a FastAPI endpoint), and proofs about the claims of its design
specification.

Modelling conventions:
* Python strings are Lean `String`s; Python string comparison (used by
  `asyncio.PriorityQueue` on `(-priority, url, depth)` tuples) is
  code-point lexicographic, modelled by `lexLt` on the character lists.
* `asyncio` cooperative concurrency is modelled as a small-step
  interleaving semantics: each worker's code between two `await`
  suspension points is one atomic step, and a schedule (a list of worker
  indices) selects which worker runs next.  The three suspension gaps of
  the worker loop (`queue.get` -> `page.goto`/`extract_main_content` ->
  `eval_on_selector_all`) give three worker step kinds.
* The external renderer (playwright) is a `World`: a finite map from URL
  to the text and links the rendered page would yield; a URL absent from
  the `World` models a navigation failure (the `except` path).
* Wall-clock timeouts are abstracted: a worker whose `queue.get` would
  block (empty queue) may take its idle-timeout exit step at any moment.
-/

set_option maxRecDepth 40000

namespace APICrawler

/-! ### Character and string helpers (Python string primitives) -/

/-- ASCII lowercasing of one character, as Python `str.lower` does on ASCII. -/
def lowerChar (c : Char) : Char :=
  if 'A' ≤ c ∧ c ≤ 'Z' then Char.ofNat (c.toNat + 32) else c

/-- Python `str.lower` (ASCII fragment; all configured keywords are ASCII). -/
def lowerStr (s : String) : String := ⟨s.data.map lowerChar⟩

/-- Contiguous-sublist test on character lists: Python `pat in s`. -/
def containsSub (pat : List Char) : List Char → Bool
  | [] => pat.isEmpty
  | c :: rest => pat.isPrefixOf (c :: rest) || containsSub pat rest

/-- Python `pat in hay` for strings. -/
def strContains (hay pat : String) : Bool := containsSub pat.data hay.data

/-- Python `s.startswith(pre)`. -/
def strStarts (s pre : String) : Bool := pre.data.isPrefixOf s.data

def isDigitCh (c : Char) : Bool := decide ('0' ≤ c) && decide (c ≤ '9')

/-- Python `re.search(r'\d{4,}', ·)`: some run of at least four digits. -/
def hasDigitRun4 : List Char → Bool
  | a :: b :: c :: d :: rest =>
      (isDigitCh a && isDigitCh b && isDigitCh c && isDigitCh d)
        || hasDigitRun4 (b :: c :: d :: rest)
  | _ => false

/-- Python regex `\s` on ASCII text. -/
def isSpaceCh (c : Char) : Bool :=
  c = ' ' || c = '\t' || c = '\n' || c = '\r' || c = '\x0b' || c = '\x0c'

/-- `re.sub(r'\s+', ' ', ·)`: collapse each maximal whitespace run to one
space.  The boolean argument records whether the previous character was
part of a whitespace run. -/
def squeezeWs : List Char → Bool → List Char
  | [], _ => []
  | c :: rest, prevSp =>
      if isSpaceCh c then
        (if prevSp then [] else [' ']) ++ squeezeWs rest true
      else c :: squeezeWs rest false

/-- Python `str.strip()` (after squeezing, only plain spaces remain). -/
def stripWs (l : List Char) : List Char :=
  ((l.dropWhile isSpaceCh).reverse.dropWhile isSpaceCh).reverse

/-- `clean_text` from main.py: `re.sub(r'\s+', ' ', text).strip()`. -/
def clean_text (s : String) : String := ⟨stripWs (squeezeWs s.data false)⟩

/-- Code-point lexicographic strict order on character lists: exactly
Python's `<` on strings. -/
def lexLt : List Char → List Char → Bool
  | [], [] => false
  | [], _ :: _ => true
  | _ :: _, [] => false
  | a :: as, b :: bs => if a = b then lexLt as bs else decide (a < b)

/-! ### Configuration constants of main.py -/

def IGNORE_PATH_KEYWORDS : List String :=
  ["privacy", "legal", "terms", "cookie", "contact", "support", "security",
   "accessibility", "login", "account", "shop", "cart", "forum", "download",
   "driver", "events"]

def PRIORITY_PATH_KEYWORDS : List String :=
  ["about", "solution", "product", "industry", "enterprise", "company",
   "news", "press", "blog", "investor", "career", "platform", "who-we-are",
   "about us"]

def IGNORE_EXTENSIONS_PROTOCOLS : List String :=
  [".pdf", ".zip", ".jpg", ".png", ".svg", ".css", ".js", ".xml", ".rss",
   "mailto:", "tel:", "javascript:"]

def MAX_DEPTH : Nat := 2
def MAX_PAGES : Nat := 25
def CONCURRENCY : Nat := 5
def MAX_TEXT_CHARS : Nat := 8000

/-! ### urllib.parse fragment

Model of `urlparse` / `urljoin` / `urldefrag` for the generic URL shapes
the crawler manipulates (scheme://netloc/path?query#fragment and
relative references).  Dot-segment normalization of relative paths is not
modelled; the concrete inputs used below contain no dot segments. -/

structure UrlParts where
  scheme : String
  netloc : String
  path : String
  query : String
  frag : String
deriving DecidableEq

def isAlphaCh (c : Char) : Bool :=
  (decide ('a' ≤ c) && decide (c ≤ 'z')) || (decide ('A' ≤ c) && decide (c ≤ 'Z'))

def isSchemeCh (c : Char) : Bool :=
  isAlphaCh c || isDigitCh c || c = '+' || c = '-' || c = '.'

/-- Split at the first occurrence of `ch`; `none` if absent. -/
def splitAtCh (ch : Char) : List Char → List Char × Option (List Char)
  | [] => ([], none)
  | c :: rest =>
      if c = ch then ([], some rest)
      else
        let r := splitAtCh ch rest
        (c :: r.1, r.2)

/-- Span until the first character in `stops`. -/
def spanUntilAny (stops : List Char) : List Char → List Char × List Char
  | [] => ([], [])
  | c :: rest =>
      if c ∈ stops then ([], c :: rest)
      else
        let r := spanUntilAny stops rest
        (c :: r.1, r.2)

/-- Scheme detection of `urllib.parse.urlsplit`: the part before the first
`:` is a scheme iff it is nonempty, starts with a letter and consists of
scheme characters; the scheme is lowercased. -/
def schemeSplit (l : List Char) : String × List Char :=
  match splitAtCh ':' l with
  | (before, some after) =>
      if before ≠ [] && isAlphaCh (before.headD 'a') && before.all isSchemeCh then
        (⟨before.map lowerChar⟩, after)
      else ("", l)
  | (_, none) => ("", l)

def urlparse (s : String) : UrlParts :=
  let sr := schemeSplit s.data
  let nr : String × List Char :=
    match sr.2 with
    | '/' :: '/' :: rest =>
        let p := spanUntilAny ['/', '?', '#'] rest
        (⟨p.1⟩, p.2)
    | other => ("", other)
  let fr := splitAtCh '#' nr.2
  let qr := splitAtCh '?' fr.1
  { scheme := sr.1
    netloc := nr.1
    path := ⟨qr.1⟩
    query := match qr.2 with | none => "" | some q => ⟨q⟩
    frag := match fr.2 with | none => "" | some f => ⟨f⟩ }

def unparse (p : UrlParts) : String :=
  (if p.scheme = "" then "" else p.scheme ++ ":") ++
  (if p.netloc = "" then "" else "//" ++ p.netloc) ++
  p.path ++
  (if p.query = "" then "" else "?" ++ p.query) ++
  (if p.frag = "" then "" else "#" ++ p.frag)

/-- `urllib.parse.urldefrag(u).url`: drop everything from the first `#`. -/
def urldefrag (s : String) : String := ⟨(splitAtCh '#' s.data).1⟩

/-- `urllib.parse.urljoin` for absolute, network-relative, root-relative
and plain-relative references (without dot-segment normalization). -/
def urljoin (base url : String) : String :=
  if url = "" then base
  else
    let b := urlparse base
    let u := urlparse url
    if u.scheme ≠ "" && u.scheme ≠ b.scheme then url
    else if u.netloc ≠ "" then
      unparse { u with scheme := if u.scheme = "" then b.scheme else u.scheme }
    else if u.path = "" then
      unparse { b with query := if u.query = "" then b.query else u.query,
                       frag := u.frag }
    else if strStarts u.path "/" then
      unparse { b with path := u.path, query := u.query, frag := u.frag }
    else
      let dir : String := ⟨(b.path.data.reverse.dropWhile (fun c => c ≠ '/')).reverse⟩
      let dir := if dir = "" then "/" else dir
      unparse { b with path := dir ++ u.path, query := u.query, frag := u.frag }

/-! ### LinkClassifier: `get_link_priority` and `is_relevant_link` -/

/-- `get_link_priority` from main.py. -/
def get_link_priority (path : String) : Int :=
  let path_lower := lowerStr path
  if PRIORITY_PATH_KEYWORDS.any (fun kw => strContains path_lower kw) then 2
  else if path_lower = "/" then 1
  else 0

/-- `IGNORE_PATTERN_REGEX.search(path)`:
`/(catalogue|item|product|page-)/|\d{4,}` found anywhere in `path`. -/
def noiseHit (p : String) : Bool :=
  strContains p "/catalogue/" || strContains p "/item/" ||
  strContains p "/product/" || strContains p "/page-/" ||
  hasDigitRun4 p.data

/-- `is_relevant_link` from main.py. -/
def is_relevant_link (href : String) (base_netloc : String) : Bool :=
  if href = "" || strStarts href "#" then false
  else if IGNORE_EXTENSIONS_PROTOCOLS.any (fun p => strStarts (lowerStr href) p) then false
  else
    let parsed := urlparse href
    if parsed.netloc ≠ "" && parsed.netloc ≠ base_netloc then false
    else
      let path := lowerStr parsed.path
      if IGNORE_PATH_KEYWORDS.any (fun kw => strContains path kw) then false
      else if noiseHit path then false
      else true

/-! ### Frontier: `asyncio.PriorityQueue` over `(-priority, url, depth)`

`asyncio.PriorityQueue` is a binary heap (`heapq`) over the stored
tuples: `get` returns the smallest tuple under Python's lexicographic
tuple comparison.  No insertion counter is stored, so ties at equal
first component are resolved by comparing the URL strings.  We model the
heap contents as the list of entries in insertion order (`put` appends)
and `get` as removal of the tuple-minimal entry. -/

structure Entry where
  negPrio : Int
  url : String
  depth : Nat
deriving DecidableEq

/-- Python tuple comparison `(-p₁,u₁,d₁) <= (-p₂,u₂,d₂)`. -/
def entryLE (a b : Entry) : Bool :=
  decide (a.negPrio < b.negPrio) ||
    (decide (a.negPrio = b.negPrio) &&
      (lexLt a.url.data b.url.data ||
        (decide (a.url = b.url) && decide (a.depth ≤ b.depth))))

def pqMin : List Entry → Option Entry
  | [] => none
  | e :: rest =>
      some (match pqMin rest with
            | none => e
            | some m => if entryLE e m then e else m)

def removeFirst (e : Entry) : List Entry → List Entry
  | [] => []
  | x :: rest => if x = e then rest else x :: removeFirst e rest

/-- `PriorityQueue.get` when items are available: the heap hands out the
tuple-minimal entry. -/
def pqGet (q : List Entry) : Option (Entry × List Entry) :=
  match pqMin q with
  | none => none
  | some m => some (m, removeFirst m q)

/-- `PriorityQueue.put` (unbounded queue: never suspends). -/
def frontierPut (q : List Entry) (e : Entry) : List Entry := q ++ [e]

/-! ### ResultStore: a Python dict

`results[path_key] = v` keeps the position of an existing key and
replaces its value (so a repeated path silently overwrites); a fresh key
is appended.  `len(results)` is the number of keys. -/

def dictInsert (d : List (String × String)) (k v : String) :
    List (String × String) :=
  match d with
  | [] => [(k, v)]
  | (k', v') :: rest =>
      if k' = k then (k, v) :: rest else (k', v') :: dictInsert rest k v

def dictLookup (d : List (String × String)) (k : String) : Option String :=
  match d with
  | [] => none
  | (k', v') :: rest => if k' = k then some v' else dictLookup rest k

/-! ### Renderer collaborator -/

structure Link where
  href : String
  inNav : Bool
deriving DecidableEq

structure PageData where
  text : String
  links : List Link
deriving DecidableEq

/-- What the external renderer yields for each URL.  A URL absent from
the world makes `page.goto` raise (timeout / navigation error). -/
def World := List (String × PageData)

def fetchPage (w : World) (url : String) : Option PageData :=
  (w.find? (fun p => p.1 = url)).map Prod.snd

/-! ### Worker state machine -/

/-- One worker's position between suspension points:
`idle` = about to `await queue.get`; `fetching` = suspended inside
`page.goto`/`extract_main_content`; `dispatching` = suspended inside
`eval_on_selector_all`; `done` = the worker loop has exited (idle
timeout or cancellation). -/
inductive WPC where
  | idle
  | fetching (url : String) (depth : Nat)
  | dispatching (url : String) (depth : Nat)
  | done
deriving DecidableEq

structure CrawlState where
  baseNetloc : String
  queue : List Entry
  visited : List String
  results : List (String × String)
  /-- `asyncio.Queue._unfinished_tasks`: puts minus `task_done` calls. -/
  unfinished : Nat
  /-- ghost counter: successful dequeues. -/
  gotten : Nat
  /-- ghost counter: `task_done` calls. -/
  acked : Nat
  /-- ghost log: every URL ever `put` on the frontier, in order. -/
  enqueuedLog : List String
  workers : List WPC
  /-- set when `task_done` is called with no unfinished task
  (Python would raise `ValueError` here). -/
  ackErr : Bool
deriving DecidableEq

def taskDone (s : CrawlState) : CrawlState :=
  if s.unfinished = 0 then { s with ackErr := true }
  else { s with unfinished := s.unfinished - 1, acked := s.acked + 1 }

/-- The `finally` clause of the worker loop:
`if not priority_queue.empty(): priority_queue.task_done()`. -/
def finallyAck (s : CrawlState) : CrawlState :=
  if s.queue = [] then s else taskDone s

def pqPut (s : CrawlState) (e : Entry) : CrawlState :=
  { s with queue := frontierPut s.queue e,
           unfinished := s.unfinished + 1,
           enqueuedLog := s.enqueuedLog ++ [e.url] }

def getPC (s : CrawlState) (i : Nat) : WPC := s.workers.getD i .done

def setPC (s : CrawlState) (i : Nat) (pc : WPC) : CrawlState :=
  { s with workers := s.workers.set i pc }

/-- `"page not found" in text.lower() and len(text) < 150`. -/
def softFail (text : String) : Bool :=
  strContains (lowerStr text) "page not found" && decide (text.data.length < 150)

/-- `urlparse(full_url).path or "/"`. -/
def pathKey (u : String) : String :=
  let p := (urlparse u).path
  if p = "" then "/" else p

/-- `results[path_key] = clean_text(text)[:MAX_TEXT_CHARS]`. -/
def storeResult (s : CrawlState) (url : String) (text : String) : CrawlState :=
  { s with results := dictInsert s.results (pathKey url) ⟨(clean_text text).data.take MAX_TEXT_CHARS⟩ }

/-- `{link['href'] for link in links if link['href']}`, iterated in
first-occurrence order (CPython set iteration order is unspecified; no
claim below depends on this order). -/
def uniqueHrefs (links : List Link) : List String :=
  ((links.map Link.href).filter (fun h => h ≠ "")).eraseDups

/-- Body of the per-href dispatch loop (lines 133-143 of main.py):
relevance filter, resolution, visited-registry check with its size cap,
priority scoring with the navigation boost, and the `put`. -/
def processHref (fullUrl : String) (depth : Nat) (links : List Link)
    (s : CrawlState) (href : String) : CrawlState :=
  if is_relevant_link href s.baseNetloc then
    let abs_url := urldefrag (urljoin fullUrl href)
    if s.visited.contains abs_url then s
    else if s.visited.length < MAX_PAGES * 5 then
      let s1 := { s with visited := s.visited ++ [abs_url] }
      let p : Int := get_link_priority (urlparse abs_url).path
      let p := if links.any (fun l => l.href = href && l.inNav) then 3 else p
      pqPut s1 { negPrio := -p, url := abs_url, depth := depth + 1 }
    else s
  else s

/-- Worker step from `idle`: `await wait_for(queue.get(), 3.0)`.
On an empty queue, the idle timeout may fire: `break`, then the
`finally` (vacuous on an empty queue), and the worker exits.  Otherwise
the minimal entry is handed out and the `MAX_PAGES` skip-guard runs
before the next suspension (`page.goto`). -/
def stepA (s : CrawlState) (i : Nat) : CrawlState :=
  match pqGet s.queue with
  | none => setPC s i .done
  | some (e, q') =>
      let s1 := { s with queue := q', gotten := s.gotten + 1 }
      if MAX_PAGES ≤ s1.results.length then
        finallyAck (taskDone s1)
      else setPC s1 i (.fetching e.url e.depth)

/-- Worker step resuming after `page.goto` + `extract_main_content`:
navigation failure is swallowed; soft-failure content is skipped;
otherwise the cleaned, truncated text is written into `results` and, if
`depth < MAX_DEPTH`, the worker proceeds to link extraction (the next
suspension). -/
def stepB (w : World) (s : CrawlState) (i : Nat) (url : String) (depth : Nat) :
    CrawlState :=
  match fetchPage w url with
  | none => setPC (finallyAck s) i .idle
  | some page =>
      if softFail page.text then
        setPC (finallyAck (taskDone s)) i .idle
      else
        let s1 := storeResult s url page.text
        if depth < MAX_DEPTH then setPC s1 i (.dispatching url depth)
        else setPC (finallyAck s1) i .idle

/-- Worker step resuming after `eval_on_selector_all`: the dispatch loop
over the distinct hrefs, then the `finally` acknowledgement. -/
def stepC (w : World) (s : CrawlState) (i : Nat) (url : String) (depth : Nat) :
    CrawlState :=
  let links := ((fetchPage w url).map PageData.links).getD []
  let s1 := (uniqueHrefs links).foldl (processHref url depth links) s
  setPC (finallyAck s1) i .idle

def step (w : World) (s : CrawlState) (i : Nat) : CrawlState :=
  match getPC s i with
  | .idle => stepA s i
  | .fetching url depth => stepB w s i url depth
  | .dispatching url depth => stepC w s i url depth
  | .done => s

/-! ### CrawlController: seeding and the session -/

def withScheme (domain : String) : String :=
  if strStarts domain "http://" || strStarts domain "https://" then domain
  else "https://" ++ domain

/-- Lines 85-100 of main.py: normalized base URL, seed entry at the
highest band with depth 1, seed marked visited, `unfinished = 1` for the
seed `put`. -/
def initState (domain : String) : CrawlState :=
  let d := withScheme domain
  let pd := urlparse d
  let base_url := pd.scheme ++ "://" ++ pd.netloc
  let start_url := urljoin base_url pd.path
  { baseNetloc := pd.netloc
    queue := [{ negPrio := -3, url := start_url, depth := 1 }]
    visited := [start_url]
    results := []
    unfinished := 1
    gotten := 0
    acked := 0
    enqueuedLog := [start_url]
    workers := List.replicate CONCURRENCY .idle
    ackErr := false }

/-- Interleaved execution under a schedule of worker indices. -/
def run (w : World) (domain : String) (sched : List Nat) : CrawlState :=
  sched.foldl (step w) (initState domain)

structure CrawlResult where
  domain : String
  sections : List (String × String)
deriving DecidableEq

/-- The value `crawl_final` returns after the controller's
`wait_for(queue.join(), TOTAL_TIMEOUT)` / cancellation epilogue: the
current contents of `results` (the UTC timestamp is wall-clock data and
is not modelled). -/
def crawl_final (w : World) (domain : String) (sched : List Nat) : CrawlResult :=
  let pd := urlparse (withScheme domain)
  { domain := pd.scheme ++ "://" ++ pd.netloc
    sections := (run w domain sched).results }

/-- `queue.join()` unblocks exactly when `_unfinished_tasks == 0`. -/
def joinReady (s : CrawlState) : Prop := s.unfinished = 0

instance (s : CrawlState) : Decidable (joinReady s) := Nat.decEq s.unfinished 0

/-! ### The FastAPI endpoint `run_crawl` -/

inductive PyExc where
  | http (status : Nat) (detail : String)
  | other (msg : String)
deriving DecidableEq

def excMsg : PyExc → String
  | .http st d => toString st ++ ": " ++ d
  | .other m => m

/-- The `try` body of `run_crawl`: run the crawl (whose own uncaught
failure propagates as an exception), then raise `HTTPException(404)` if
`sections` is empty, else return the data. -/
def runCrawlTryBody (outcome : Except String CrawlResult) :
    Except PyExc CrawlResult :=
  match outcome with
  | .error m => .error (.other m)
  | .ok data =>
      if data.sections.isEmpty then
        .error (.http 404 "Could not crawl the domain or found no content.")
      else .ok data

/-- `run_crawl` as seen by the HTTP caller: `except Exception` catches
every exception raised inside the `try` — including the
`HTTPException(404)` itself — and re-raises `HTTPException(500)` with
the triggering message attached. -/
def run_crawl (outcome : Except String CrawlResult) :
    Except (Nat × String) CrawlResult :=
  match runCrawlTryBody outcome with
  | .ok d => .ok d
  | .error e => .error (500, "An internal error occurred: " ++ excMsg e)

/-! ### Concrete worlds and schedules -/

/-- A domain whose seed page renders fine and contains no links. -/
def soloWorld : World :=
  [("https://e.c", { text := "home page body text", links := [] })]

/-- Schedule: worker 0 processes the seed (dequeue, fetch+extract,
dispatch with no links), then every worker takes its idle-timeout exit. -/
def soloSched : List Nat := [0, 0, 0, 0, 1, 2, 3, 4]

/-- Two distinct URLs sharing the path `/a` (query-string variant). -/
def overwriteWorld : World :=
  [("https://e.c",
    { text := "seed body",
      links := [{ href := "/a", inNav := false },
                { href := "/a?q=1", inNav := false }] }),
   ("https://e.c/a", { text := "alpha one", links := [] }),
   ("https://e.c/a?q=1", { text := "alpha two", links := [] })]

/-- Worker 0: seed (three steps), then fetch `/a`. -/
def overwriteSchedA : List Nat := [0, 0, 0, 0, 0]

/-- ... then also fetch `/a?q=1`, whose result lands on the same key. -/
def overwriteSchedB : List Nat := overwriteSchedA ++ [0, 0]

def padNum (n : Nat) : String :=
  if n < 10 then "0" ++ toString n else toString n

/-- Seed page linking to 28 distinct relevant pages `/a01` … `/a28`. -/
def raceWorld : World :=
  ("https://e.c",
    { text := "seed body",
      links := (List.range 28).map
        (fun i => { href := "/a" ++ padNum (i + 1), inNav := false }) }) ::
  (List.range 28).map
    (fun i => ("https://e.c/a" ++ padNum (i + 1),
               ({ text := "b", links := [] } : PageData)))

/-- Worker 0 processes the seed (3 steps) and then 23 of the children
(2 steps each: dequeue+guard, fetch+store); at that point
`len(results) = 24` and five entries remain.  Then all five workers pass
the skip-guard concurrently (five dequeue steps), suspend in
`page.goto`, and each stores its page (five store steps).  Finally every
worker takes its idle-timeout exit. -/
def raceSched : List Nat :=
  List.replicate 49 0 ++ [0, 1, 2, 3, 4] ++ [0, 1, 2, 3, 4] ++ [0, 1, 2, 3, 4]

/-! ### Plumbing lemmas -/

@[simp] lemma taskDone_queue (s : CrawlState) : (taskDone s).queue = s.queue := by
  unfold taskDone; split <;> rfl

@[simp] lemma taskDone_visited (s : CrawlState) : (taskDone s).visited = s.visited := by
  unfold taskDone; split <;> rfl

@[simp] lemma taskDone_results (s : CrawlState) : (taskDone s).results = s.results := by
  unfold taskDone; split <;> rfl

@[simp] lemma taskDone_log (s : CrawlState) : (taskDone s).enqueuedLog = s.enqueuedLog := by
  unfold taskDone; split <;> rfl

@[simp] lemma taskDone_workers (s : CrawlState) : (taskDone s).workers = s.workers := by
  unfold taskDone; split <;> rfl

@[simp] lemma taskDone_baseNetloc (s : CrawlState) : (taskDone s).baseNetloc = s.baseNetloc := by
  unfold taskDone; split <;> rfl

@[simp] lemma finallyAck_queue (s : CrawlState) : (finallyAck s).queue = s.queue := by
  unfold finallyAck; split <;> simp

@[simp] lemma finallyAck_visited (s : CrawlState) : (finallyAck s).visited = s.visited := by
  unfold finallyAck; split <;> simp

@[simp] lemma finallyAck_results (s : CrawlState) : (finallyAck s).results = s.results := by
  unfold finallyAck; split <;> simp

@[simp] lemma finallyAck_log (s : CrawlState) : (finallyAck s).enqueuedLog = s.enqueuedLog := by
  unfold finallyAck; split <;> simp

@[simp] lemma finallyAck_workers (s : CrawlState) : (finallyAck s).workers = s.workers := by
  unfold finallyAck; split <;> simp

@[simp] lemma finallyAck_baseNetloc (s : CrawlState) : (finallyAck s).baseNetloc = s.baseNetloc := by
  unfold finallyAck; split <;> simp

@[simp] lemma pqPut_queue (s : CrawlState) (e : Entry) :
    (pqPut s e).queue = s.queue ++ [e] := rfl

@[simp] lemma pqPut_visited (s : CrawlState) (e : Entry) :
    (pqPut s e).visited = s.visited := rfl

@[simp] lemma pqPut_log (s : CrawlState) (e : Entry) :
    (pqPut s e).enqueuedLog = s.enqueuedLog ++ [e.url] := rfl

@[simp] lemma pqPut_workers (s : CrawlState) (e : Entry) :
    (pqPut s e).workers = s.workers := rfl

@[simp] lemma pqPut_baseNetloc (s : CrawlState) (e : Entry) :
    (pqPut s e).baseNetloc = s.baseNetloc := rfl

@[simp] lemma storeResult_queue (s : CrawlState) (url text : String) :
    (storeResult s url text).queue = s.queue := rfl

@[simp] lemma storeResult_visited (s : CrawlState) (url text : String) :
    (storeResult s url text).visited = s.visited := rfl

@[simp] lemma storeResult_log (s : CrawlState) (url text : String) :
    (storeResult s url text).enqueuedLog = s.enqueuedLog := rfl

@[simp] lemma storeResult_workers (s : CrawlState) (url text : String) :
    (storeResult s url text).workers = s.workers := rfl

@[simp] lemma storeResult_baseNetloc (s : CrawlState) (url text : String) :
    (storeResult s url text).baseNetloc = s.baseNetloc := rfl

@[simp] lemma storeResult_unfinished (s : CrawlState) (url text : String) :
    (storeResult s url text).unfinished = s.unfinished := rfl

@[simp] lemma setPC_queue (s : CrawlState) (i : Nat) (pc : WPC) :
    (setPC s i pc).queue = s.queue := rfl

@[simp] lemma setPC_visited (s : CrawlState) (i : Nat) (pc : WPC) :
    (setPC s i pc).visited = s.visited := rfl

@[simp] lemma setPC_results (s : CrawlState) (i : Nat) (pc : WPC) :
    (setPC s i pc).results = s.results := rfl

@[simp] lemma setPC_log (s : CrawlState) (i : Nat) (pc : WPC) :
    (setPC s i pc).enqueuedLog = s.enqueuedLog := rfl

@[simp] lemma setPC_workers (s : CrawlState) (i : Nat) (pc : WPC) :
    (setPC s i pc).workers = s.workers.set i pc := rfl

lemma getPC_setPC_self {s : CrawlState} {i : Nat} (pc : WPC)
    (h : i < s.workers.length) : getPC (setPC s i pc) i = pc := by
  unfold getPC setPC
  simp [List.getD_eq_getElem?_getD, List.getElem?_set_self h]

lemma getPC_setPC_ne {s : CrawlState} {i j : Nat} (pc : WPC) (h : i ≠ j) :
    getPC (setPC s i pc) j = getPC s j := by
  unfold getPC setPC
  simp [List.getD_eq_getElem?_getD, List.getElem?_set_ne h]

lemma mem_workers_setPC {s : CrawlState} {i : Nat} {pc x : WPC}
    (hx : x ∈ (setPC s i pc).workers) : x ∈ s.workers ∨ x = pc :=
  List.mem_or_eq_of_mem_set hx

/-! ### Frontier lemmas -/

lemma pqMin_mem : ∀ {q : List Entry} {e : Entry}, pqMin q = some e → e ∈ q := by
  intro q
  induction q with
  | nil => intro e h; simp [pqMin] at h
  | cons x rest ih =>
      intro e h
      simp only [pqMin] at h
      rcases hr : pqMin rest with _ | m
      · rw [hr] at h; simp at h; simp [h]
      · rw [hr] at h
        simp only [Option.some.injEq] at h
        by_cases hle : entryLE x m = true
        · simp [hle] at h; simp [h]
        · simp [hle] at h
          right
          exact h ▸ ih hr

lemma removeFirst_subset {e : Entry} :
    ∀ {q : List Entry} {x : Entry}, x ∈ removeFirst e q → x ∈ q := by
  intro q
  induction q with
  | nil => intro x h; simp [removeFirst] at h
  | cons y rest ih =>
      intro x h
      simp only [removeFirst] at h
      by_cases hy : y = e
      · simp [hy] at h; simp [h]
      · simp [hy] at h
        rcases h with h | h
        · simp [h]
        · exact List.mem_cons_of_mem _ (ih h)

lemma removeFirst_length {e : Entry} :
    ∀ {q : List Entry}, e ∈ q → (removeFirst e q).length + 1 = q.length := by
  intro q
  induction q with
  | nil => intro h; simp at h
  | cons y rest ih =>
      intro h
      simp only [removeFirst]
      by_cases hy : y = e
      · simp [hy]
      · have : e ∈ rest := by
          rcases List.mem_cons.mp h with h' | h'
          · exact absurd h'.symm hy
          · exact h'
        simp [hy, ih this]

lemma pqGet_mem {q : List Entry} {e : Entry} {q' : List Entry}
    (h : pqGet q = some (e, q')) : e ∈ q ∧ q' = removeFirst e q := by
  unfold pqGet at h
  rcases hm : pqMin q with _ | m
  · rw [hm] at h; simp at h
  · rw [hm] at h
    simp only [Option.some.injEq, Prod.mk.injEq] at h
    exact ⟨h.1 ▸ pqMin_mem hm, h.2.symm ▸ h.1 ▸ rfl⟩

lemma lexLt_irrefl : ∀ l : List Char, lexLt l l = false := by
  intro l
  induction l with
  | nil => rfl
  | cons c rest ih => simp [lexLt, ih]

lemma lexLt_trans :
    ∀ {a b c : List Char}, lexLt a b = true → lexLt b c = true → lexLt a c = true := by
  intro a
  induction a with
  | nil =>
      intro b c h1 h2
      cases b with
      | nil => simp [lexLt] at h1
      | cons y bs =>
          cases c with
          | nil => simp [lexLt] at h2
          | cons z cs => simp [lexLt]
  | cons x as ih =>
      intro b c h1 h2
      cases b with
      | nil => simp [lexLt] at h1
      | cons y bs =>
          cases c with
          | nil => simp [lexLt] at h2
          | cons z cs =>
              simp only [lexLt] at h1 h2 ⊢
              by_cases hxy : x = y
              · subst hxy
                simp only [if_pos rfl] at h1
                by_cases hxz : x = z
                · subst hxz
                  simp only [if_pos rfl] at h2 ⊢
                  exact ih h1 h2
                · simp only [if_neg hxz] at h2 ⊢
                  exact h2
              · simp only [if_neg hxy, decide_eq_true_eq] at h1
                by_cases hyz : y = z
                · subst hyz
                  simp [if_neg hxy, h1]
                · simp only [if_neg hyz, decide_eq_true_eq] at h2
                  have hxz : x < z := lt_trans h1 h2
                  simp [ne_of_lt hxz, hxz]

lemma lexLt_total :
    ∀ {a b : List Char}, lexLt a b = false → lexLt b a = false → a = b := by
  intro a
  induction a with
  | nil =>
      intro b h1 _
      cases b with
      | nil => rfl
      | cons y bs => simp [lexLt] at h1
  | cons x as ih =>
      intro b h1 h2
      cases b with
      | nil => simp [lexLt] at h2
      | cons y bs =>
          simp only [lexLt] at h1 h2
          by_cases hxy : x = y
          · subst hxy
            simp only [if_pos rfl] at h1 h2
            rw [ih h1 h2]
          · simp only [if_neg hxy, decide_eq_false_iff_not] at h1
            simp only [if_neg (Ne.symm hxy), decide_eq_false_iff_not] at h2
            exact absurd (lt_or_gt_of_ne hxy).elim (by intro h; exact h (fun hl => h1 hl) (fun hg => h2 hg))

lemma entryLE_refl (a : Entry) : entryLE a a = true := by
  simp [entryLE, lexLt_irrefl]

lemma string_eq_of_data_eq {a b : String} (h : a.data = b.data) : a = b := by
  cases a; cases b; simp_all

lemma entryLE_total (a b : Entry) : entryLE a b = true ∨ entryLE b a = true := by
  simp only [entryLE, Bool.or_eq_true, Bool.and_eq_true, decide_eq_true_eq]
  rcases lt_trichotomy a.negPrio b.negPrio with h | h | h
  · left; left; exact h
  · rcases hu : lexLt a.url.data b.url.data with hf | ht
    · rcases hv : lexLt b.url.data a.url.data with hf' | ht'
      · have : a.url = b.url := string_eq_of_data_eq (lexLt_total hu hv)
        rcases le_total a.depth b.depth with hd | hd
        · left; right; exact ⟨h, Or.inr ⟨this, hd⟩⟩
        · right; right; exact ⟨h.symm, Or.inr ⟨this.symm, hd⟩⟩
      · right; right; exact ⟨h.symm, Or.inl rfl⟩
    · left; right; exact ⟨h, Or.inl rfl⟩
  · right; left; exact h

lemma entryLE_trans {a b c : Entry}
    (h1 : entryLE a b = true) (h2 : entryLE b c = true) : entryLE a c = true := by
  simp only [entryLE, Bool.or_eq_true, Bool.and_eq_true, decide_eq_true_eq] at h1 h2 ⊢
  rcases h1 with h1 | ⟨he1, h1⟩
  · rcases h2 with h2 | ⟨he2, _⟩
    · exact Or.inl (lt_trans h1 h2)
    · exact Or.inl (he2 ▸ h1)
  · rcases h2 with h2 | ⟨he2, h2⟩
    · exact Or.inl (he1 ▸ h2)
    · refine Or.inr ⟨he1.trans he2, ?_⟩
      rcases h1 with h1 | ⟨hu1, hd1⟩
      · rcases h2 with h2 | ⟨hu2, _⟩
        · exact Or.inl (lexLt_trans h1 h2)
        · exact Or.inl (hu2 ▸ h1)
      · rcases h2 with h2 | ⟨hu2, hd2⟩
        · exact Or.inl (hu1 ▸ h2)
        · exact Or.inr ⟨hu1.trans hu2, le_trans hd1 hd2⟩

lemma pqMin_le : ∀ {q : List Entry} {e : Entry},
    pqMin q = some e → ∀ x ∈ q, entryLE e x = true := by
  intro q
  induction q with
  | nil => intro e h; simp [pqMin] at h
  | cons y rest ih =>
      intro e h x hx
      simp only [pqMin] at h
      rcases hr : pqMin rest with _ | m
      · rw [hr] at h
        simp only [Option.some.injEq] at h
        rcases List.mem_cons.mp hx with hx' | hx'
        · rw [← h, hx']; exact entryLE_refl _
        · cases rest with
          | nil => simp at hx'
          | cons z zs => simp [pqMin] at hr
      · rw [hr] at h
        simp only [Option.some.injEq] at h
        by_cases hle : entryLE y m = true
        · rw [if_pos hle] at h
          rcases List.mem_cons.mp hx with hx' | hx'
          · rw [← h, hx']; exact entryLE_refl _
          · rw [← h]; exact entryLE_trans hle (ih hr x hx')
        · rw [if_neg hle] at h
          rcases List.mem_cons.mp hx with hx' | hx'
          · rw [← h, hx']
            rcases entryLE_total y m with h' | h'
            · exact absurd h' hle
            · exact h'
          · rw [← h]; exact ih hr x hx'

lemma pqGet_min {q : List Entry} {e : Entry} {q' : List Entry}
    (h : pqGet q = some (e, q')) : ∀ x ∈ q, entryLE e x = true := by
  unfold pqGet at h
  rcases hm : pqMin q with _ | m
  · rw [hm] at h; simp at h
  · rw [hm] at h
    simp only [Option.some.injEq, Prod.mk.injEq] at h
    exact h.1 ▸ pqMin_le hm

/-! ### LinkClassifier lemmas -/

/-- If `is_relevant_link` accepts a link, every filter stage passed. -/
lemma relevant_true {href bh : String} (h : is_relevant_link href bh = true) :
    href ≠ "" ∧ strStarts href "#" = false ∧
    (IGNORE_EXTENSIONS_PROTOCOLS.any fun p => strStarts (lowerStr href) p) = false ∧
    ((urlparse href).netloc = "" ∨ (urlparse href).netloc = bh) ∧
    (IGNORE_PATH_KEYWORDS.any fun kw => strContains (lowerStr (urlparse href).path) kw) = false ∧
    noiseHit (lowerStr (urlparse href).path) = false := by
  unfold is_relevant_link at h
  by_cases h1 : (href = "" || strStarts href "#") = true
  · rw [if_pos h1] at h; exact absurd h (by simp)
  · rw [if_neg h1] at h
    by_cases h2 : (IGNORE_EXTENSIONS_PROTOCOLS.any fun p => strStarts (lowerStr href) p) = true
    · rw [if_pos h2] at h; exact absurd h (by simp)
    · rw [if_neg h2] at h
      simp only at h
      by_cases h3 : ((urlparse href).netloc ≠ "" && (urlparse href).netloc ≠ bh) = true
      · rw [if_pos h3] at h; exact absurd h (by simp)
      · rw [if_neg h3] at h
        by_cases h4 :
            (IGNORE_PATH_KEYWORDS.any fun kw => strContains (lowerStr (urlparse href).path) kw) = true
        · rw [if_pos h4] at h; exact absurd h (by simp)
        · rw [if_neg h4] at h
          by_cases h5 : noiseHit (lowerStr (urlparse href).path) = true
          · rw [if_pos h5] at h; exact absurd h (by simp)
          · refine ⟨?_, ?_, Bool.eq_false_iff.mpr (fun hc => h2 hc), ?_,
              Bool.eq_false_iff.mpr (fun hc => h4 hc), Bool.eq_false_iff.mpr (fun hc => h5 hc)⟩
            · intro he
              exact h1 (by simp [he])
            · rcases hs : strStarts href "#" with _ | _
              · rfl
              · exact absurd (by simp [hs]) h1
            · by_cases hn : (urlparse href).netloc = ""
              · exact Or.inl hn
              · by_cases hb : (urlparse href).netloc = bh
                · exact Or.inr hb
                · exact absurd (by simp [hn, hb]) h3

lemma not_relevant_of_empty (bh : String) : is_relevant_link "" bh = false := by
  simp [is_relevant_link]

lemma not_relevant_of_hash {href : String} (bh : String)
    (h : strStarts href "#" = true) : is_relevant_link href bh = false := by
  rcases hr : is_relevant_link href bh with _ | _
  · rfl
  · have := (relevant_true hr).2.1
    simp_all

lemma not_relevant_of_pre {href bh p : String}
    (hm : p ∈ IGNORE_EXTENSIONS_PROTOCOLS) (hp : strStarts (lowerStr href) p = true) :
    is_relevant_link href bh = false := by
  rcases hr : is_relevant_link href bh with _ | _
  · rfl
  · have := (relevant_true hr).2.2.1
    have : (IGNORE_EXTENSIONS_PROTOCOLS.any fun q => strStarts (lowerStr href) q) = true :=
      List.any_eq_true.mpr ⟨p, hm, hp⟩
    simp_all

lemma not_relevant_of_netloc {href bh : String}
    (hn : (urlparse href).netloc ≠ "") (hb : (urlparse href).netloc ≠ bh) :
    is_relevant_link href bh = false := by
  rcases hr : is_relevant_link href bh with _ | _
  · rfl
  · rcases (relevant_true hr).2.2.2.1 with h | h
    · exact absurd h hn
    · exact absurd h hb

lemma not_relevant_of_keyword {href bh kw : String}
    (hm : kw ∈ IGNORE_PATH_KEYWORDS)
    (hc : strContains (lowerStr (urlparse href).path) kw = true) :
    is_relevant_link href bh = false := by
  rcases hr : is_relevant_link href bh with _ | _
  · rfl
  · have h1 := (relevant_true hr).2.2.2.2.1
    have h2 : (IGNORE_PATH_KEYWORDS.any fun k => strContains (lowerStr (urlparse href).path) k) = true :=
      List.any_eq_true.mpr ⟨kw, hm, hc⟩
    simp_all

lemma not_relevant_of_noise {href bh : String}
    (hn : noiseHit (lowerStr (urlparse href).path) = true) :
    is_relevant_link href bh = false := by
  rcases hr : is_relevant_link href bh with _ | _
  · rfl
  · have := (relevant_true hr).2.2.2.2.2
    simp_all

lemma priority_keyword {p kw : String} (hm : kw ∈ PRIORITY_PATH_KEYWORDS)
    (hc : strContains (lowerStr p) kw = true) : get_link_priority p = 2 := by
  unfold get_link_priority
  have : (PRIORITY_PATH_KEYWORDS.any fun k => strContains (lowerStr p) k) = true :=
    List.any_eq_true.mpr ⟨kw, hm, hc⟩
  simp [this]

lemma priority_default {p : String}
    (hk : (PRIORITY_PATH_KEYWORDS.all fun k => !strContains (lowerStr p) k) = true)
    (hs : lowerStr p ≠ "/") : get_link_priority p = 0 := by
  unfold get_link_priority
  have hany : (PRIORITY_PATH_KEYWORDS.any fun k => strContains (lowerStr p) k) = false := by
    rcases ha : (PRIORITY_PATH_KEYWORDS.any fun k => strContains (lowerStr p) k) with _ | _
    · rfl
    · rcases List.any_eq_true.mp ha with ⟨k, hkm, hkc⟩
      have := List.all_eq_true.mp hk k hkm
      simp_all
  simp [hany, hs]

/-! ### processHref lemmas -/

/-- A link the relevance filter rejects changes nothing: it is never
enqueued, whatever its navigation context. -/
lemma processHref_irrelevant {href : String} {s : CrawlState}
    (u : String) (d : Nat) (ls : List Link)
    (h : is_relevant_link href s.baseNetloc = false) :
    processHref u d ls s href = s := by
  simp [processHref, h]

/-- Every entry the dispatch loop puts carries depth `d + 1`. -/
lemma processHref_depth {u : String} {d : Nat} {ls : List Link}
    {s : CrawlState} {href : String} :
    ∀ e ∈ (processHref u d ls s href).queue, e ∈ s.queue ∨ e.depth = d + 1 := by
  intro e he
  unfold processHref at he
  by_cases h1 : is_relevant_link href s.baseNetloc = true
  · rw [if_pos h1] at he
    by_cases h2 : s.visited.contains (urldefrag (urljoin u href)) = true
    · rw [if_pos h2] at he; exact Or.inl he
    · rw [if_neg h2] at he
      by_cases h3 : s.visited.length < MAX_PAGES * 5
      · rw [if_pos h3] at he
        simp only [pqPut_queue] at he
        rcases List.mem_append.mp he with h | h
        · exact Or.inl h
        · simp at h; exact Or.inr (by simp [h])
      · rw [if_neg h3] at he; exact Or.inl he
  · rw [if_neg h1] at he; exact Or.inl he

/-- The VisitedRegistry grows only below its `MAX_PAGES * 5` size cap,
by exactly the resolved URL. -/
lemma processHref_visited {u : String} {d : Nat} {ls : List Link}
    {s : CrawlState} {href : String} :
    (processHref u d ls s href).visited = s.visited ∨
      (s.visited.length < MAX_PAGES * 5 ∧
        (processHref u d ls s href).visited
          = s.visited ++ [urldefrag (urljoin u href)]) := by
  unfold processHref
  by_cases h1 : is_relevant_link href s.baseNetloc = true
  · rw [if_pos h1]
    by_cases h2 : s.visited.contains (urldefrag (urljoin u href)) = true
    · rw [if_pos h2]; exact Or.inl rfl
    · rw [if_neg h2]
      by_cases h3 : s.visited.length < MAX_PAGES * 5
      · rw [if_pos h3]
        exact Or.inr ⟨h3, rfl⟩
      · rw [if_neg h3]; exact Or.inl rfl
  · rw [if_neg h1]; exact Or.inl rfl

/-- The navigation boost: a relevant, not-yet-visited link whose href has some
anchor instance inside a `nav` is enqueued in the top band (priority 3,
stored as `-3`) at depth `d + 1`. -/
lemma processHref_nav {u : String} {d : Nat} {ls : List Link}
    {s : CrawlState} {href : String}
    (h1 : is_relevant_link href s.baseNetloc = true)
    (h2 : s.visited.contains (urldefrag (urljoin u href)) = false)
    (h3 : s.visited.length < MAX_PAGES * 5)
    (h4 : (ls.any fun l => l.href = href && l.inNav) = true) :
    (processHref u d ls s href).queue =
      s.queue ++ [{ negPrio := -3, url := urldefrag (urljoin u href), depth := d + 1 }] := by
  unfold processHref
  rw [if_pos h1, if_neg (by simpa using h2), if_pos h3]
  simp [h4]

/-! ### Reachability invariant -/

def wpcDepthOK : WPC → Prop
  | .idle => True
  | .done => True
  | .fetching _ d => 1 ≤ d ∧ d ≤ MAX_DEPTH
  | .dispatching _ d => 1 ≤ d ∧ d < MAX_DEPTH

/-- Invariant of every reachable crawl state: the enqueue log has no
duplicate URL and is covered by the VisitedRegistry, the registry has no
duplicates, queued entries carry depths in `[1, MAX_DEPTH]`, and a
worker only ever dispatches below `MAX_DEPTH`. -/
structure Inv (s : CrawlState) : Prop where
  log_nodup : s.enqueuedLog.Nodup
  log_vis : ∀ u ∈ s.enqueuedLog, u ∈ s.visited
  vis_nodup : s.visited.Nodup
  qdepth : ∀ e ∈ s.queue, 1 ≤ e.depth ∧ e.depth ≤ MAX_DEPTH
  wdepth : ∀ pc ∈ s.workers, wpcDepthOK pc

lemma processHref_workers (u : String) (d : Nat) (ls : List Link)
    (s : CrawlState) (href : String) :
    (processHref u d ls s href).workers = s.workers := by
  unfold processHref
  by_cases h1 : is_relevant_link href s.baseNetloc = true
  · rw [if_pos h1]
    by_cases h2 : s.visited.contains (urldefrag (urljoin u href)) = true
    · rw [if_pos h2]
    · rw [if_neg h2]
      by_cases h3 : s.visited.length < MAX_PAGES * 5
      · rw [if_pos h3]; rfl
      · rw [if_neg h3]
  · rw [if_neg h1]

lemma processHref_baseNetloc (u : String) (d : Nat) (ls : List Link)
    (s : CrawlState) (href : String) :
    (processHref u d ls s href).baseNetloc = s.baseNetloc := by
  unfold processHref
  by_cases h1 : is_relevant_link href s.baseNetloc = true
  · rw [if_pos h1]
    by_cases h2 : s.visited.contains (urldefrag (urljoin u href)) = true
    · rw [if_pos h2]
    · rw [if_neg h2]
      by_cases h3 : s.visited.length < MAX_PAGES * 5
      · rw [if_pos h3]; rfl
      · rw [if_neg h3]
  · rw [if_neg h1]

lemma processHref_results (u : String) (d : Nat) (ls : List Link)
    (s : CrawlState) (href : String) :
    (processHref u d ls s href).results = s.results := by
  unfold processHref
  by_cases h1 : is_relevant_link href s.baseNetloc = true
  · rw [if_pos h1]
    by_cases h2 : s.visited.contains (urldefrag (urljoin u href)) = true
    · rw [if_pos h2]
    · rw [if_neg h2]
      by_cases h3 : s.visited.length < MAX_PAGES * 5
      · rw [if_pos h3]; rfl
      · rw [if_neg h3]
  · rw [if_neg h1]

lemma processHref_inv {u : String} {d : Nat} {ls : List Link}
    {s : CrawlState} {href : String}
    (hd : d + 1 ≤ MAX_DEPTH) (h : Inv s) :
    Inv (processHref u d ls s href) := by
  unfold processHref
  by_cases h1 : is_relevant_link href s.baseNetloc = true
  · rw [if_pos h1]
    by_cases h2 : s.visited.contains (urldefrag (urljoin u href)) = true
    · rw [if_pos h2]; exact h
    · rw [if_neg h2]
      by_cases h3 : s.visited.length < MAX_PAGES * 5
      · rw [if_pos h3]
        have habs : urldefrag (urljoin u href) ∉ s.visited := by
          simpa using h2
        split
        all_goals {
          refine ⟨?_, ?_, ?_, ?_, ?_⟩
          · simp only [pqPut_log]
            rw [List.nodup_append]
            refine ⟨h.log_nodup, List.nodup_singleton _, ?_⟩
            intro a ha hb
            simp at hb
            exact habs (hb ▸ h.log_vis a ha)
          · intro x hx
            simp only [pqPut_log] at hx
            simp only [pqPut_visited]
            rcases List.mem_append.mp hx with hx | hx
            · exact List.mem_append.mpr (Or.inl (h.log_vis x hx))
            · simp at hx
              simp [hx]
          · simp only [pqPut_visited]
            rw [List.nodup_append]
            exact ⟨h.vis_nodup, List.nodup_singleton _, by
              intro a ha hb
              simp at hb
              exact habs (hb ▸ ha)⟩
          · intro e he
            simp only [pqPut_queue] at he
            rcases List.mem_append.mp he with he | he
            · exact h.qdepth e he
            · simp at he
              subst he
              exact ⟨Nat.le_add_left 1 d, hd⟩
          · simpa only [pqPut_workers] using h.wdepth
        }
      · rw [if_neg h3]; exact h
  · rw [if_neg h1]; exact h

lemma foldl_preserve {β : Type} {P : CrawlState → Prop}
    {f : CrawlState → β → CrawlState}
    (hf : ∀ s b, P s → P (f s b)) :
    ∀ (l : List β) (s : CrawlState), P s → P (l.foldl f s) := by
  intro l
  induction l with
  | nil => intro s hs; exact hs
  | cons b rest ih => intro s hs; exact ih _ (hf s b hs)

lemma getPC_mem {s : CrawlState} {i : Nat} (h : i < s.workers.length) :
    getPC s i ∈ s.workers := by
  unfold getPC
  rw [List.getD_eq_getElem?_getD, List.getElem?_eq_getElem h]
  exact List.getElem_mem h

lemma getPC_done_of_ge {s : CrawlState} {i : Nat}
    (h : s.workers.length ≤ i) : getPC s i = .done := by
  unfold getPC
  rw [List.getD_eq_getElem?_getD, List.getElem?_eq_none h]
  rfl

lemma getPC_congr {s s' : CrawlState} (h : s'.workers = s.workers) (j : Nat) :
    getPC s' j = getPC s j := by
  unfold getPC; rw [h]

lemma wpcDepthOK_idle : wpcDepthOK .idle := True.intro

lemma wpcDepthOK_done : wpcDepthOK .done := True.intro

lemma inv_setPC {s : CrawlState} {i : Nat} {pc : WPC}
    (h : Inv s) (hpc : wpcDepthOK pc) : Inv (setPC s i pc) := by
  refine ⟨h.log_nodup, h.log_vis, h.vis_nodup, h.qdepth, ?_⟩
  intro x hx
  rcases mem_workers_setPC hx with hx' | hx'
  · exact h.wdepth x hx'
  · exact hx' ▸ hpc

lemma inv_of_fields {s s' : CrawlState}
    (h : Inv s)
    (hl : s'.enqueuedLog = s.enqueuedLog) (hv : s'.visited = s.visited)
    (hq : ∀ e ∈ s'.queue, e ∈ s.queue) (hw : s'.workers = s.workers) : Inv s' := by
  refine ⟨hl ▸ h.log_nodup, ?_, hv ▸ h.vis_nodup, ?_, hw ▸ h.wdepth⟩
  · intro u hu
    rw [hl] at hu
    rw [hv]
    exact h.log_vis u hu
  · intro e he
    exact h.qdepth e (hq e he)

lemma step_eq_of_idle {w : World} {s : CrawlState} {i : Nat}
    (h : getPC s i = .idle) : step w s i = stepA s i := by
  unfold step; rw [h]

lemma step_eq_of_fetching {w : World} {s : CrawlState} {i : Nat} {url : String}
    {depth : Nat} (h : getPC s i = .fetching url depth) :
    step w s i = stepB w s i url depth := by
  unfold step; rw [h]

lemma step_eq_of_dispatching {w : World} {s : CrawlState} {i : Nat} {url : String}
    {depth : Nat} (h : getPC s i = .dispatching url depth) :
    step w s i = stepC w s i url depth := by
  unfold step; rw [h]

lemma step_eq_of_done {w : World} {s : CrawlState} {i : Nat}
    (h : getPC s i = .done) : step w s i = s := by
  unfold step; rw [h]

lemma stepA_eq_none {s : CrawlState} {i : Nat} (h : pqGet s.queue = none) :
    stepA s i = setPC s i .done := by
  unfold stepA; rw [h]

lemma stepA_eq_some {s : CrawlState} {i : Nat} {e : Entry} {q' : List Entry}
    (h : pqGet s.queue = some (e, q')) :
    stepA s i =
      if MAX_PAGES ≤ s.results.length
      then finallyAck (taskDone { s with queue := q', gotten := s.gotten + 1 })
      else setPC { s with queue := q', gotten := s.gotten + 1 } i
             (.fetching e.url e.depth) := by
  unfold stepA; rw [h]

lemma stepB_eq_none {w : World} {s : CrawlState} {i : Nat} {url : String}
    {depth : Nat} (h : fetchPage w url = none) :
    stepB w s i url depth = setPC (finallyAck s) i .idle := by
  unfold stepB; rw [h]

lemma stepB_eq_some {w : World} {s : CrawlState} {i : Nat} {url : String}
    {depth : Nat} {page : PageData} (h : fetchPage w url = some page) :
    stepB w s i url depth =
      if softFail page.text = true
      then setPC (finallyAck (taskDone s)) i .idle
      else
        if depth < MAX_DEPTH
        then setPC (storeResult s url page.text) i (.dispatching url depth)
        else setPC (finallyAck (storeResult s url page.text)) i .idle := by
  unfold stepB; rw [h]

lemma stepC_eq (w : World) (s : CrawlState) (i : Nat) (url : String) (depth : Nat) :
    stepC w s i url depth =
      setPC (finallyAck ((uniqueHrefs (((fetchPage w url).map PageData.links).getD [])).foldl
        (processHref url depth (((fetchPage w url).map PageData.links).getD [])) s)) i .idle := rfl

lemma foldl_processHref_workers (u : String) (d : Nat) (ls : List Link) :
    ∀ (hs : List String) (s : CrawlState),
      (hs.foldl (processHref u d ls) s).workers = s.workers := by
  intro hs
  induction hs with
  | nil => intro s; rfl
  | cons x rest ih =>
      intro s
      simp only [List.foldl_cons]
      rw [ih, processHref_workers]

lemma step_inv {w : World} {s : CrawlState} {i : Nat} (h : Inv s) :
    Inv (step w s i) := by
  rcases hpc : getPC s i with _ | ⟨url, depth⟩ | ⟨url, depth⟩ | _
  · -- idle: stepA
    rw [step_eq_of_idle hpc]
    rcases hq : pqGet s.queue with _ | ⟨e, q'⟩
    · rw [stepA_eq_none hq]
      exact inv_setPC h wpcDepthOK_done
    · obtain ⟨hmem, hrm⟩ := pqGet_mem hq
      rw [stepA_eq_some hq]
      by_cases hg : MAX_PAGES ≤ s.results.length
      · rw [if_pos hg]
        refine inv_of_fields h (by simp) (by simp) ?_ (by simp)
        intro x hx
        simp only [finallyAck_queue, taskDone_queue] at hx
        exact removeFirst_subset (hrm ▸ hx)
      · rw [if_neg hg]
        have h1 : Inv ({ s with queue := q', gotten := s.gotten + 1 } : CrawlState) := by
          refine inv_of_fields h rfl rfl ?_ rfl
          intro x hx
          exact removeFirst_subset (hrm ▸ hx)
        exact inv_setPC h1 (h.qdepth e hmem)
  · -- fetching: stepB
    have hi : i < s.workers.length := by
      by_contra hge
      rw [getPC_done_of_ge (Nat.le_of_not_lt hge)] at hpc
      exact WPC.noConfusion hpc
    have hdok : wpcDepthOK (.fetching url depth) := hpc ▸ h.wdepth _ (getPC_mem hi)
    rw [step_eq_of_fetching hpc]
    rcases hf : fetchPage w url with _ | page
    · rw [stepB_eq_none hf]
      exact inv_setPC (inv_of_fields h (by simp) (by simp) (by simp) (by simp)) wpcDepthOK_idle
    · rw [stepB_eq_some hf]
      by_cases hsf : softFail page.text = true
      · rw [if_pos hsf]
        exact inv_setPC (inv_of_fields h (by simp) (by simp) (by simp) (by simp)) wpcDepthOK_idle
      · rw [if_neg hsf]
        by_cases hlt : depth < MAX_DEPTH
        · rw [if_pos hlt]
          exact inv_setPC (inv_of_fields h rfl rfl (by simp) rfl) ⟨hdok.1, hlt⟩
        · rw [if_neg hlt]
          exact inv_setPC (inv_of_fields h (by simp) (by simp) (by simp) (by simp)) wpcDepthOK_idle
  · -- dispatching: stepC
    have hi : i < s.workers.length := by
      by_contra hge
      rw [getPC_done_of_ge (Nat.le_of_not_lt hge)] at hpc
      exact WPC.noConfusion hpc
    have hdok : wpcDepthOK (.dispatching url depth) := hpc ▸ h.wdepth _ (getPC_mem hi)
    rw [step_eq_of_dispatching hpc, stepC_eq]
    have h1 : Inv ((uniqueHrefs (((fetchPage w url).map PageData.links).getD [])).foldl
        (processHref url depth (((fetchPage w url).map PageData.links).getD [])) s) :=
      foldl_preserve (fun s' b hs' => processHref_inv hdok.2 hs') _ s h
    exact inv_setPC (inv_of_fields h1 (by simp) (by simp) (by simp) (by simp)) wpcDepthOK_idle
  · rw [step_eq_of_done hpc]
    exact h

lemma initState_inv (domain : String) : Inv (initState domain) := by
  refine ⟨List.nodup_singleton _, ?_, List.nodup_singleton _, ?_, ?_⟩
  · intro u hu
    simpa using hu
  · intro e he
    simp only [initState, List.mem_singleton] at he
    subst he
    exact ⟨le_refl 1, by norm_num [MAX_DEPTH]⟩
  · intro pc hpc
    have : pc = .idle := List.eq_of_mem_replicate hpc
    simp [this, wpcDepthOK]

lemma run_inv (w : World) (domain : String) (sched : List Nat) :
    Inv (run w domain sched) := by
  unfold run
  refine foldl_preserve (fun s i hs => step_inv hs) sched _ (initState_inv domain)

/-! ### Termination: a strictly decreasing measure -/

def pcWeight : WPC → Nat
  | .idle => 1
  | .fetching _ _ => 3
  | .dispatching _ _ => 2
  | .done => 0

/-- The VisitedRegistry size cap `MAX_PAGES * 5`. -/
def VCAP : Nat := MAX_PAGES * 5

/-- Every state-changing step strictly decreases this quantity: queued
work, per-worker progress through the loop body, and the remaining
enqueue budget (each `put` is paid for by a VisitedRegistry insertion,
which happens at most `VCAP` times). -/
def crawlMeasure (s : CrawlState) : Nat :=
  3 * s.queue.length + (s.workers.map pcWeight).sum
    + 3 * (VCAP - min s.visited.length VCAP)

lemma processHref_pot {u : String} {d : Nat} {ls : List Link}
    {s : CrawlState} {href : String} :
    3 * (processHref u d ls s href).queue.length
        + 3 * (VCAP - min (processHref u d ls s href).visited.length VCAP)
      = 3 * s.queue.length + 3 * (VCAP - min s.visited.length VCAP) := by
  unfold processHref
  by_cases h1 : is_relevant_link href s.baseNetloc = true
  · rw [if_pos h1]
    by_cases h2 : s.visited.contains (urldefrag (urljoin u href)) = true
    · rw [if_pos h2]
    · rw [if_neg h2]
      by_cases h3 : s.visited.length < MAX_PAGES * 5
      · rw [if_pos h3]
        simp only [pqPut_queue, pqPut_visited, List.length_append, List.length_cons,
          List.length_nil]
        have h3' : s.visited.length < VCAP := h3
        simp only [Nat.min_def]
        split_ifs <;> omega
      · rw [if_neg h3]
  · rw [if_neg h1]

lemma foldl_processHref_pot (u : String) (d : Nat) (ls : List Link) :
    ∀ (hs : List String) (s : CrawlState),
      3 * (hs.foldl (processHref u d ls) s).queue.length
          + 3 * (VCAP - min (hs.foldl (processHref u d ls) s).visited.length VCAP)
        = 3 * s.queue.length + 3 * (VCAP - min s.visited.length VCAP) := by
  intro hs
  induction hs with
  | nil => intro s; rfl
  | cons x rest ih =>
      intro s
      simp only [List.foldl_cons]
      rw [ih, processHref_pot]

lemma mapSum_set (f : WPC → Nat) :
    ∀ (l : List WPC) (i : Nat) (v : WPC), i < l.length →
      ((l.set i v).map f).sum + f (l.getD i .done) = (l.map f).sum + f v := by
  intro l
  induction l with
  | nil => intro i v h; simp at h
  | cons x rest ih =>
      intro i v h
      cases i with
      | zero => simp [List.set]; omega
      | succ n =>
          simp only [List.set, List.map_cons, List.sum_cons, List.getD_cons_succ]
          have := ih n v (by simpa using h)
          omega

lemma getPC_getD (s : CrawlState) (i : Nat) :
    s.workers.getD i .done = getPC s i := rfl

lemma step_measure_lt {w : World} {s : CrawlState} {i : Nat}
    (hne : step w s i ≠ s) : crawlMeasure (step w s i) < crawlMeasure s := by
  by_cases hi : i < s.workers.length
  case neg =>
    exact absurd (step_eq_of_done (getPC_done_of_ge (Nat.le_of_not_lt hi))) hne
  case pos =>
  rcases hpc : getPC s i with _ | ⟨url, depth⟩ | ⟨url, depth⟩ | _
  · -- idle
    rw [step_eq_of_idle hpc]
    rcases hq : pqGet s.queue with _ | ⟨e, q'⟩
    · rw [stepA_eq_none hq]
      unfold crawlMeasure
      simp only [setPC_queue, setPC_visited, setPC_workers]
      have hm := mapSum_set pcWeight s.workers i .done hi
      rw [getPC_getD, hpc] at hm
      simp only [pcWeight] at hm
      omega
    · obtain ⟨hmem, hrm⟩ := pqGet_mem hq
      have hql : q'.length + 1 = s.queue.length := hrm ▸ removeFirst_length hmem
      rw [stepA_eq_some hq]
      by_cases hg : MAX_PAGES ≤ s.results.length
      · rw [if_pos hg]
        unfold crawlMeasure
        simp only [finallyAck_queue, taskDone_queue, finallyAck_visited, taskDone_visited,
          finallyAck_workers, taskDone_workers]
        omega
      · rw [if_neg hg]
        unfold crawlMeasure
        simp only [setPC_queue, setPC_visited, setPC_workers]
        have hm := mapSum_set pcWeight s.workers i (.fetching e.url e.depth) hi
        rw [getPC_getD, hpc] at hm
        simp only [pcWeight] at hm
        omega
  · -- fetching
    rw [step_eq_of_fetching hpc]
    have hm3 := mapSum_set pcWeight s.workers i .idle hi
    rw [getPC_getD, hpc] at hm3
    simp only [pcWeight] at hm3
    rcases hf : fetchPage w url with _ | page
    · rw [stepB_eq_none hf]
      unfold crawlMeasure
      simp only [setPC_queue, setPC_visited, setPC_workers, finallyAck_queue,
        finallyAck_visited, finallyAck_workers]
      omega
    · rw [stepB_eq_some hf]
      by_cases hsf : softFail page.text = true
      · rw [if_pos hsf]
        unfold crawlMeasure
        simp only [setPC_queue, setPC_visited, setPC_workers, finallyAck_queue,
          finallyAck_visited, finallyAck_workers, taskDone_queue, taskDone_visited,
          taskDone_workers]
        omega
      · rw [if_neg hsf]
        by_cases hlt : depth < MAX_DEPTH
        · rw [if_pos hlt]
          unfold crawlMeasure
          simp only [setPC_queue, setPC_visited, setPC_workers, storeResult_queue,
            storeResult_visited, storeResult_workers]
          have hm2 := mapSum_set pcWeight s.workers i (.dispatching url depth) hi
          rw [getPC_getD, hpc] at hm2
          simp only [pcWeight] at hm2
          omega
        · rw [if_neg hlt]
          unfold crawlMeasure
          simp only [setPC_queue, setPC_visited, setPC_workers, finallyAck_queue,
            finallyAck_visited, finallyAck_workers, storeResult_queue,
            storeResult_visited, storeResult_workers]
          omega
  · -- dispatching
    rw [step_eq_of_dispatching hpc, stepC_eq]
    have hwork := foldl_processHref_workers url depth
      (((fetchPage w url).map PageData.links).getD [])
      (uniqueHrefs (((fetchPage w url).map PageData.links).getD [])) s
    have hpot := foldl_processHref_pot url depth
      (((fetchPage w url).map PageData.links).getD [])
      (uniqueHrefs (((fetchPage w url).map PageData.links).getD [])) s
    unfold crawlMeasure
    simp only [setPC_queue, setPC_visited, setPC_workers, finallyAck_queue,
      finallyAck_visited, finallyAck_workers, hwork]
    have hm := mapSum_set pcWeight s.workers i .idle hi
    rw [getPC_getD, hpc] at hm
    simp only [pcWeight] at hm
    omega
  · exact absurd (step_eq_of_done hpc) hne

/-- Some worker is still running its loop. -/
def hasLiveWorker (s : CrawlState) : Prop := ∃ pc ∈ s.workers, pc ≠ WPC.done

lemma step_progress {w : World} {s : CrawlState} (h : hasLiveWorker s) :
    ∃ i, step w s i ≠ s := by
  obtain ⟨pc, hmem, hne⟩ := h
  obtain ⟨i, hi, hget⟩ := List.mem_iff_getElem.mp hmem
  have hgp : getPC s i = pc := by
    unfold getPC
    rw [List.getD_eq_getElem?_getD, List.getElem?_eq_getElem hi, hget]
    rfl
  refine ⟨i, ?_⟩
  rcases hpcs : pc with _ | ⟨url, depth⟩ | ⟨url, depth⟩ | _
  · -- idle
    subst hpcs
    rcases hq : pqGet s.queue with _ | ⟨e, q'⟩
    · rw [step_eq_of_idle hgp, stepA_eq_none hq]
      intro hc
      have h1 : getPC (setPC s i .done) i = getPC s i := by rw [hc]
      rw [getPC_setPC_self _ hi, hgp] at h1
      exact WPC.noConfusion h1
    · obtain ⟨hmem', hrm⟩ := pqGet_mem hq
      have hql : q'.length + 1 = s.queue.length := hrm ▸ removeFirst_length hmem'
      rw [step_eq_of_idle hgp, stepA_eq_some hq]
      by_cases hg : MAX_PAGES ≤ s.results.length
      · rw [if_pos hg]
        intro hc
        have h1 := congrArg (fun st : CrawlState => st.queue.length) hc
        simp only [finallyAck_queue, taskDone_queue] at h1
        omega
      · rw [if_neg hg]
        intro hc
        have h1 : getPC (setPC ({ s with queue := q', gotten := s.gotten + 1 } : CrawlState)
            i (.fetching e.url e.depth)) i = getPC s i := by rw [hc]
        rw [getPC_setPC_self _ (by simpa using hi), hgp] at h1
        exact WPC.noConfusion h1
  · -- fetching
    subst hpcs
    rw [step_eq_of_fetching hgp]
    rcases hf : fetchPage w url with _ | page
    · rw [stepB_eq_none hf]
      intro hc
      have h1 : getPC (setPC (finallyAck s) i .idle) i = getPC s i := by rw [hc]
      rw [getPC_setPC_self _ (by simpa using hi), hgp] at h1
      exact WPC.noConfusion h1
    · rw [stepB_eq_some hf]
      by_cases hsf : softFail page.text = true
      · rw [if_pos hsf]
        intro hc
        have h1 : getPC (setPC (finallyAck (taskDone s)) i .idle) i = getPC s i := by rw [hc]
        rw [getPC_setPC_self _ (by simpa using hi), hgp] at h1
        exact WPC.noConfusion h1
      · rw [if_neg hsf]
        by_cases hlt : depth < MAX_DEPTH
        · rw [if_pos hlt]
          intro hc
          have h1 : getPC (setPC (storeResult s url page.text) i (.dispatching url depth)) i
              = getPC s i := by rw [hc]
          rw [getPC_setPC_self _ (by simpa using hi), hgp] at h1
          exact WPC.noConfusion h1
        · rw [if_neg hlt]
          intro hc
          have h1 : getPC (setPC (finallyAck (storeResult s url page.text)) i .idle) i
              = getPC s i := by rw [hc]
          rw [getPC_setPC_self _ (by simpa using hi), hgp] at h1
          exact WPC.noConfusion h1
  · -- dispatching
    subst hpcs
    rw [step_eq_of_dispatching hgp, stepC_eq]
    intro hc
    have hwork := foldl_processHref_workers url depth
      (((fetchPage w url).map PageData.links).getD [])
      (uniqueHrefs (((fetchPage w url).map PageData.links).getD [])) s
    have h1 : getPC (setPC (finallyAck ((uniqueHrefs (((fetchPage w url).map
        PageData.links).getD [])).foldl (processHref url depth
        (((fetchPage w url).map PageData.links).getD [])) s)) i .idle) i
        = getPC s i := by rw [hc]
    rw [getPC_setPC_self _ (by simp only [finallyAck_workers, hwork]; exact hi), hgp] at h1
    exact WPC.noConfusion h1
  · exact absurd hpcs hne

lemma getPC_finallyAck (s : CrawlState) (j : Nat) :
    getPC (finallyAck s) j = getPC s j :=
  getPC_congr (finallyAck_workers s) j

lemma getPC_taskDone (s : CrawlState) (j : Nat) :
    getPC (taskDone s) j = getPC s j :=
  getPC_congr (taskDone_workers s) j

/-- A worker can newly enter the Dispatching state only for a page whose
depth is strictly below `MAX_DEPTH` (the guard of line 128 of main.py). -/
lemma step_new_dispatch {w : World} {s : CrawlState} {i j : Nat}
    {url : String} {d : Nat}
    (h : getPC (step w s i) j = .dispatching url d) :
    getPC s j = .dispatching url d ∨ d < MAX_DEPTH := by
  by_cases hi : i < s.workers.length
  case neg =>
    rw [step_eq_of_done (getPC_done_of_ge (Nat.le_of_not_lt hi))] at h
    exact Or.inl h
  case pos =>
  rcases hpc : getPC s i with _ | ⟨u0, d0⟩ | ⟨u0, d0⟩ | _
  · -- idle
    rw [step_eq_of_idle hpc] at h
    rcases hq : pqGet s.queue with _ | ⟨e, q'⟩
    · rw [stepA_eq_none hq] at h
      by_cases hij : i = j
      · subst hij
        rw [getPC_setPC_self _ hi] at h
        exact WPC.noConfusion h
      · rw [getPC_setPC_ne _ hij] at h
        exact Or.inl h
    · rw [stepA_eq_some hq] at h
      by_cases hg : MAX_PAGES ≤ s.results.length
      · rw [if_pos hg] at h
        rw [getPC_finallyAck, getPC_taskDone] at h
        exact Or.inl h
      · rw [if_neg hg] at h
        by_cases hij : i = j
        · subst hij
          rw [getPC_setPC_self _ (by simpa using hi)] at h
          exact WPC.noConfusion h
        · rw [getPC_setPC_ne _ hij] at h
          exact Or.inl h
  · -- fetching
    rw [step_eq_of_fetching hpc] at h
    rcases hf : fetchPage w u0 with _ | page
    · rw [stepB_eq_none hf] at h
      by_cases hij : i = j
      · subst hij
        rw [getPC_setPC_self _ (by simpa using hi)] at h
        exact WPC.noConfusion h
      · rw [getPC_setPC_ne _ hij, getPC_finallyAck] at h
        exact Or.inl h
    · rw [stepB_eq_some hf] at h
      by_cases hsf : softFail page.text = true
      · rw [if_pos hsf] at h
        by_cases hij : i = j
        · subst hij
          rw [getPC_setPC_self _ (by simpa using hi)] at h
          exact WPC.noConfusion h
        · rw [getPC_setPC_ne _ hij, getPC_finallyAck, getPC_taskDone] at h
          exact Or.inl h
      · rw [if_neg hsf] at h
        by_cases hlt : d0 < MAX_DEPTH
        · rw [if_pos hlt] at h
          by_cases hij : i = j
          · subst hij
            rw [getPC_setPC_self _ (by simpa using hi)] at h
            injection h with h1 h2
            exact Or.inr (h2 ▸ hlt)
          · rw [getPC_setPC_ne _ hij] at h
            exact Or.inl h
        · rw [if_neg hlt] at h
          by_cases hij : i = j
          · subst hij
            rw [getPC_setPC_self _ (by simpa using hi)] at h
            exact WPC.noConfusion h
          · rw [getPC_setPC_ne _ hij, getPC_finallyAck] at h
            exact Or.inl h
  · -- dispatching
    rw [step_eq_of_dispatching hpc, stepC_eq] at h
    have hwork := foldl_processHref_workers u0 d0
      (((fetchPage w u0).map PageData.links).getD [])
      (uniqueHrefs (((fetchPage w u0).map PageData.links).getD [])) s
    by_cases hij : i = j
    · subst hij
      rw [getPC_setPC_self _ (by simp only [finallyAck_workers, hwork]; exact hi)] at h
      exact WPC.noConfusion h
    · rw [getPC_setPC_ne _ hij, getPC_finallyAck] at h
      rw [getPC_congr hwork j] at h
      exact Or.inl h
  · -- done
    rw [step_eq_of_done hpc] at h
    exact Or.inl h

/-! ## The claims -/

def entA : Entry := { negPrio := 0, url := "https://e.c/a", depth := 2 }

def entB : Entry := { negPrio := 0, url := "https://e.c/b", depth := 2 }

def navLinks : List Link := [{ href := "/about2", inNav := true }]

/-- Claim C1, evaluated at a failing input.  The claim says
`size(ResultStore) <= MAX_PAGES` at all times and at most `maxPages`
sections are returned.  The skip-guard of main.py line 112 runs before
the `page.goto` suspension and the insertion at line 125 is not
re-guarded, so five workers that all pass the guard at 24 stored pages
each store a page: the completed crawl returns 29 sections with
`MAX_PAGES = 25`. -/
theorem C1_cap_overflow :
    MAX_PAGES = 25 ∧
    (run raceWorld "e.c" raceSched).results.length = 29 ∧
    (run raceWorld "e.c" raceSched).workers.all (fun pc => pc = WPC.done) = true ∧
    (crawl_final raceWorld "e.c" raceSched).sections.length = 29 := by
  exact ⟨rfl, by decide, by decide, by decide⟩

/-- Claim C2, evaluated at a failing input, plus the general fact.  The
claim says an empty result set surfaces a "not found"-class error.  In
the code the `HTTPException(404)` is raised inside the `try` block whose
`except Exception` turns every exception into an
`HTTPException(500)`, so the caller sees a 500 for an empty crawl and,
in general, never any status other than 500. -/
theorem C2_empty_result_is_500 :
    run_crawl (.ok { domain := "https://e.c", sections := [] })
        = .error (500,
            "An internal error occurred: 404: Could not crawl the domain or found no content.") ∧
    ∀ (outcome : Except String CrawlResult) (st : Nat) (msg : String),
      run_crawl outcome = .error (st, msg) → st = 500 := by
  refine ⟨rfl, ?_⟩
  intro outcome st msg h
  unfold run_crawl at h
  rcases hb : runCrawlTryBody outcome with e | d
  · rw [hb] at h
    simp only [Except.error.injEq, Prod.mk.injEq] at h
    exact h.1.symm
  · rw [hb] at h
    exact Except.noConfusion h

/-- Witness for C2's general part at a concrete input: the empty-crawl
outcome is rejected with status 500. -/
theorem C2_empty_result_is_500_witness : (500 : Nat) = 500 :=
  C2_empty_result_is_500.2 (.ok { domain := "https://e.c", sections := [] }) 500
    "An internal error occurred: 404: Could not crawl the domain or found no content." rfl

/-- Claim C3, evaluated at a failing input.  The claim says every
dequeued entry is acknowledged exactly once, so the drain wait completes
exactly at full drain.  In the code the only acknowledgement on the
successful path is the `finally` clause's `task_done`, guarded by
`not priority_queue.empty()`: after the last entry is processed the
queue is empty, so the entry is dequeued (gotten = 1) but never
acknowledged (acked = 0), `_unfinished_tasks` stays 1, and
`queue.join()` never completes although all workers exited. -/
theorem C3_missing_ack :
    (run soloWorld "e.c" soloSched).gotten = 1 ∧
    (run soloWorld "e.c" soloSched).acked = 0 ∧
    (run soloWorld "e.c" soloSched).queue = [] ∧
    (run soloWorld "e.c" soloSched).workers.all (fun pc => pc = WPC.done) = true ∧
    ¬ joinReady (run soloWorld "e.c" soloSched) := by
  exact ⟨by decide, by decide, by decide, by decide, by decide⟩

/-- Counterexample to claim C4 as stated: the session `overwriteSchedB`
extends the session prefix `overwriteSchedA`; after the prefix the
ResultStore maps "/a" to the text of `https://e.c/a`, and the extension
fetches the distinct URL `https://e.c/a?q=1` (same path) and overwrites
the "/a" key. -/
theorem C4_overwrite_counterexample :
    overwriteSchedB = overwriteSchedA ++ [0, 0] ∧
    dictLookup (run overwriteWorld "e.c" overwriteSchedA).results "/a" = some "alpha one" ∧
    dictLookup (run overwriteWorld "e.c" overwriteSchedB).results "/a" = some "alpha two" := by
  exact ⟨rfl, by decide, by decide⟩

/-- Claim C4 as amended: within one crawl session no URL is ever
inserted into the VisitedRegistry (and hence enqueued) more than once —
the enqueue log and the registry of every reachable state are
duplicate-free.  (The original claim's second half is dropped: a
ResultStore path key is overwritten when two distinct URLs share a
path.) -/
theorem C4_no_duplicate_enqueue (w : World) (domain : String) (sched : List Nat) :
    (run w domain sched).enqueuedLog.Nodup ∧ (run w domain sched).visited.Nodup :=
  ⟨(run_inv w domain sched).log_nodup, (run_inv w domain sched).vis_nodup⟩

/-- Witness: the amended C4 at a concrete crawl. -/
theorem C4_no_duplicate_enqueue_witness :
    (run overwriteWorld "e.c" overwriteSchedB).enqueuedLog.Nodup ∧
    (run overwriteWorld "e.c" overwriteSchedB).visited.Nodup :=
  C4_no_duplicate_enqueue overwriteWorld "e.c" overwriteSchedB

/-- Counterexample to claim C5 as stated: two entries of the same
priority band, `https://e.c/b` inserted first and `https://e.c/a`
second; the Frontier hands out `https://e.c/a` first, so dequeue order
within a band is not insertion (FIFO) order. -/
theorem C5_fifo_counterexample :
    entA ≠ entB ∧
    pqGet (frontierPut (frontierPut [] entB) entA) = some (entA, [entB]) := by
  exact ⟨by decide, by decide⟩

/-- Claim C5 as amended: the Frontier dequeues a minimal entry of the
lexicographic order on the stored `(-priority, url, depth)` tuples:
strictly by priority band first, and among entries of equal band by
ascending URL string order (then depth) — the heap order of
`asyncio.PriorityQueue`, not insertion order. -/
theorem C5_dequeue_minimal {q : List Entry} {e : Entry} {q' : List Entry}
    (h : pqGet q = some (e, q')) :
    e ∈ q ∧
    (∀ x ∈ q, e.negPrio ≤ x.negPrio) ∧
    (∀ x ∈ q, x.negPrio = e.negPrio →
      e.url = x.url ∨ lexLt e.url.data x.url.data = true) := by
  refine ⟨(pqGet_mem h).1, ?_, ?_⟩
  · intro x hx
    have hle := pqGet_min h x hx
    simp only [entryLE, Bool.or_eq_true, Bool.and_eq_true, decide_eq_true_eq] at hle
    rcases hle with h' | ⟨h', _⟩
    · exact le_of_lt h'
    · exact le_of_eq h'
  · intro x hx hpr
    have hle := pqGet_min h x hx
    simp only [entryLE, Bool.or_eq_true, Bool.and_eq_true, decide_eq_true_eq] at hle
    rcases hle with h' | ⟨_, h'' | ⟨h'', _⟩⟩
    · omega
    · exact Or.inr h''
    · exact Or.inl h''

/-- Witness: the amended C5 at the two-entry queue. -/
theorem C5_dequeue_minimal_witness :
    entA ∈ [entB, entA] ∧
    (∀ x ∈ [entB, entA], entA.negPrio ≤ x.negPrio) ∧
    (∀ x ∈ [entB, entA], x.negPrio = entA.negPrio →
      entA.url = x.url ∨ lexLt entA.url.data x.url.data = true) :=
  C5_dequeue_minimal (by decide : pqGet [entB, entA] = some (entA, [entB]))

/-- Claim C6: `is_relevant_link` rejects the empty href, fragment-only
hrefs, hrefs starting (case-insensitively) with a denylisted extension
or scheme, hrefs whose host differs from the base host, hrefs whose
path contains (case-insensitively) a denylisted keyword, and hrefs
whose path matches the noise pattern; and the dispatch loop leaves the
state untouched for any href the filter rejects — in particular such a
link is never enqueued, whatever its navigation context, because the
relevance check precedes the nav-boost scoring. -/
theorem C6_relevance_filter :
    (∀ bh, is_relevant_link "" bh = false) ∧
    (∀ href bh, strStarts href "#" = true → is_relevant_link href bh = false) ∧
    (∀ href bh p, p ∈ IGNORE_EXTENSIONS_PROTOCOLS →
      strStarts (lowerStr href) p = true → is_relevant_link href bh = false) ∧
    (∀ href bh, (urlparse href).netloc ≠ "" → (urlparse href).netloc ≠ bh →
      is_relevant_link href bh = false) ∧
    (∀ href bh kw, kw ∈ IGNORE_PATH_KEYWORDS →
      strContains (lowerStr (urlparse href).path) kw = true →
      is_relevant_link href bh = false) ∧
    (∀ href bh, noiseHit (lowerStr (urlparse href).path) = true →
      is_relevant_link href bh = false) ∧
    (∀ u d ls s href, is_relevant_link href s.baseNetloc = false →
      processHref u d ls s href = s) :=
  ⟨not_relevant_of_empty,
   fun _ bh h => not_relevant_of_hash bh h,
   fun _ _ _ hm hp => not_relevant_of_pre hm hp,
   fun _ _ hn hb => not_relevant_of_netloc hn hb,
   fun _ _ _ hm hc => not_relevant_of_keyword hm hc,
   fun _ _ hn => not_relevant_of_noise hn,
   fun u d ls _ _ h => processHref_irrelevant u d ls h⟩

/-- Witness for C6 at concrete links, including Scenario B of the spec:
the denylisted `/contact` inside a `nav` context is not enqueued. -/
theorem C6_relevance_filter_witness :
    is_relevant_link "" "e.c" = false ∧
    is_relevant_link "#top" "e.c" = false ∧
    is_relevant_link "MAILTO:bob@e.c" "e.c" = false ∧
    is_relevant_link "https://other.com/x" "e.c" = false ∧
    is_relevant_link "/contact" "e.c" = false ∧
    is_relevant_link "/p/12345" "e.c" = false ∧
    processHref "https://e.c" 1 [{ href := "/contact", inNav := true }]
      (initState "e.c") "/contact" = initState "e.c" :=
  ⟨C6_relevance_filter.1 "e.c",
   C6_relevance_filter.2.1 "#top" "e.c" (by decide),
   C6_relevance_filter.2.2.1 "MAILTO:bob@e.c" "e.c" "mailto:" (by decide) (by decide),
   C6_relevance_filter.2.2.2.1 "https://other.com/x" "e.c" (by decide) (by decide),
   C6_relevance_filter.2.2.2.2.1 "/contact" "e.c" "contact" (by decide) (by decide),
   C6_relevance_filter.2.2.2.2.2.1 "/p/12345" "e.c" (by decide),
   C6_relevance_filter.2.2.2.2.2.2 "https://e.c" 1
     [{ href := "/contact", inNav := true }] (initState "e.c") "/contact" (by decide)⟩

/-- Claim C7: `get_link_priority` returns 2 when the lowercase path
contains a priority keyword, 1 on the exact path "/", and 0 otherwise;
and a relevant link some of whose anchor instances sit inside a
navigation context is enqueued with priority 3 (stored as `-3`),
overriding the keyword score. -/
theorem C7_priority :
    (∀ p kw, kw ∈ PRIORITY_PATH_KEYWORDS → strContains (lowerStr p) kw = true →
      get_link_priority p = 2) ∧
    get_link_priority "/" = 1 ∧
    (∀ p, (PRIORITY_PATH_KEYWORDS.all fun k => !strContains (lowerStr p) k) = true →
      lowerStr p ≠ "/" → get_link_priority p = 0) ∧
    (∀ u d ls s href, is_relevant_link href s.baseNetloc = true →
      s.visited.contains (urldefrag (urljoin u href)) = false →
      s.visited.length < MAX_PAGES * 5 →
      (ls.any fun l => l.href = href && l.inNav) = true →
      (processHref u d ls s href).queue =
        s.queue ++ [{ negPrio := -3, url := urldefrag (urljoin u href), depth := d + 1 }]) :=
  ⟨fun _ _ hm hc => priority_keyword hm hc,
   by decide,
   fun _ hk hs => priority_default hk hs,
   fun _ _ _ _ _ h1 h2 h3 h4 => processHref_nav h1 h2 h3 h4⟩

/-- Witness for C7: keyword and default scores at concrete paths, and
the nav boost overriding the keyword score 2 of `/about2`. -/
theorem C7_priority_witness :
    get_link_priority "/About2" = 2 ∧
    get_link_priority "/xyz" = 0 ∧
    (processHref "https://e.c" 1 navLinks (initState "e.c") "/about2").queue =
      (initState "e.c").queue ++ [{ negPrio := -3, url := "https://e.c/about2", depth := 2 }] :=
  ⟨C7_priority.1 "/About2" "about" (by decide) (by decide),
   C7_priority.2.2.1 "/xyz" (by decide) (by decide),
   C7_priority.2.2.2 "https://e.c" 1 navLinks (initState "e.c") "/about2"
     (by decide) (by decide) (by decide) (by decide)⟩

/-- Claim C8: every entry the dispatch loop puts carries the parent's
depth plus one; a worker newly enters the Dispatching state only when
the page's depth is strictly below `MAX_DEPTH` (and every queue entry of
a reachable state has depth at most `MAX_DEPTH`, so no deeper entry is
ever dequeued into dispatch); and the VisitedRegistry (hence the queue)
gains a new URL only while the registry size is below
`MAX_PAGES * 5`. -/
theorem C8_dispatch_budgets :
    (∀ u d ls s href, ∀ e ∈ (processHref u d ls s href).queue,
      e ∈ s.queue ∨ e.depth = d + 1) ∧
    (∀ w s i j url d, getPC (step w s i) j = .dispatching url d →
      getPC s j = .dispatching url d ∨ d < MAX_DEPTH) ∧
    (∀ w domain sched, ∀ e ∈ (run w domain sched).queue, e.depth ≤ MAX_DEPTH) ∧
    (∀ u d ls s href, (processHref u d ls s href).visited = s.visited ∨
      (s.visited.length < MAX_PAGES * 5 ∧
        (processHref u d ls s href).visited = s.visited ++ [urldefrag (urljoin u href)])) :=
  ⟨fun _ _ _ _ _ => processHref_depth,
   fun _ _ _ _ _ _ h => step_new_dispatch h,
   fun w domain sched e he => ((run_inv w domain sched).qdepth e he).2,
   fun _ _ _ _ _ => processHref_visited⟩

/-- Witness for C8 at concrete inputs: the entry put for `/about2` from a
depth-1 page, a concrete step into Dispatching, a concrete reachable
queue entry, and a concrete registry insertion. -/
theorem C8_dispatch_budgets_witness :
    (({ negPrio := -3, url := "https://e.c/about2", depth := 2 } : Entry) ∈
        (initState "e.c").queue ∨
      ({ negPrio := -3, url := "https://e.c/about2", depth := 2 } : Entry).depth = 1 + 1) ∧
    (getPC (run soloWorld "e.c" [0]) 0 = .dispatching "https://e.c" 1 ∨ 1 < MAX_DEPTH) ∧
    (({ negPrio := -3, url := "https://e.c", depth := 1 } : Entry).depth ≤ MAX_DEPTH) ∧
    ((processHref "https://e.c" 1 navLinks (initState "e.c") "/about2").visited
        = (initState "e.c").visited ∨
      ((initState "e.c").visited.length < MAX_PAGES * 5 ∧
        (processHref "https://e.c" 1 navLinks (initState "e.c") "/about2").visited
          = (initState "e.c").visited ++ [urldefrag (urljoin "https://e.c" "/about2")])) :=
  ⟨C8_dispatch_budgets.1 "https://e.c" 1 navLinks (initState "e.c") "/about2" _ (by decide),
   C8_dispatch_budgets.2.1 soloWorld (run soloWorld "e.c" [0]) 0 0 "https://e.c" 1 (by decide),
   C8_dispatch_budgets.2.2.1 soloWorld "e.c" [] _ (by decide),
   C8_dispatch_budgets.2.2.2 "https://e.c" 1 navLinks (initState "e.c") "/about2"⟩

/-- Claim C9: the crawl always terminates and returns whatever the
ResultStore holds.  In the model: every state-changing step strictly
decreases `crawlMeasure` (natural drain, the cap-induced fast-skip and
the idle-timeout exits all consume it, so no execution runs forever);
as long as some worker has not terminated, some step still changes the
state (no deadlock); and the `CrawlResult` that `crawl_final` returns
carries exactly the ResultStore contents of the final state — whatever
was captured, possibly nothing, is returned rather than discarded.  (The
wall-clock firing of `TOTAL_TIMEOUT` and of the 3-second idle timeout is
real-time behaviour, abstracted here into the always-enabled idle-exit
step.) -/
theorem C9_termination :
    (∀ w s i, step w s i ≠ s → crawlMeasure (step w s i) < crawlMeasure s) ∧
    (∀ w s, hasLiveWorker s → ∃ i, step w s i ≠ s) ∧
    (∀ w domain sched, (crawl_final w domain sched).sections = (run w domain sched).results) :=
  ⟨fun _ _ _ h => step_measure_lt h,
   fun _ _ h => step_progress h,
   fun _ _ _ => rfl⟩

/-- Witness for C9: a concrete state-changing step consumes measure, and
a concrete live state has a state-changing step. -/
theorem C9_termination_witness :
    crawlMeasure (step soloWorld (initState "e.c") 0) < crawlMeasure (initState "e.c") ∧
    (∃ i, step soloWorld (initState "e.c") i ≠ initState "e.c") :=
  ⟨C9_termination.1 soloWorld (initState "e.c") 0 (by decide),
   C9_termination.2.1 soloWorld (initState "e.c")
     ⟨.idle, by decide, by decide⟩⟩

/-- Claim C10: the seed is enqueued with depth 1 (not 0); `MAX_DEPTH`
is 2; in every reachable state a worker in the Dispatching state (link
enumeration) is processing a depth-1 page — only the seed page's links
are ever enumerated, and depth-2 pages (one hop away) are fetched
without link extraction; and every queue entry of a reachable state has
depth in `[1, MAX_DEPTH]`, so the crawl follows at most
`MAX_DEPTH - 1 = 1` link hop from the seed. -/
theorem C10_depth_one_dispatch :
    (∀ domain, (initState domain).queue.map Entry.depth = [1]) ∧
    MAX_DEPTH = 2 ∧
    (∀ w domain sched i url d,
      getPC (run w domain sched) i = .dispatching url d → d = 1) ∧
    (∀ w domain sched, ∀ e ∈ (run w domain sched).queue,
      1 ≤ e.depth ∧ e.depth ≤ MAX_DEPTH) := by
  refine ⟨fun _ => rfl, rfl, ?_, fun w dom sched => (run_inv w dom sched).qdepth⟩
  intro w domain sched i url d h
  have hi : i < (run w domain sched).workers.length := by
    by_contra hge
    rw [getPC_done_of_ge (Nat.le_of_not_lt hge)] at h
    exact WPC.noConfusion h
  have hd := (run_inv w domain sched).wdepth _ (getPC_mem hi)
  rw [h] at hd
  have h2 : 1 ≤ d ∧ d < MAX_DEPTH := hd
  have h3 : MAX_DEPTH = 2 := rfl
  omega

/-- Witness for C10: a concrete reachable Dispatching state sits at
depth 1, and the concrete seed entry respects the depth bounds. -/
theorem C10_depth_one_dispatch_witness :
    (1 : Nat) = 1 ∧
    (1 ≤ ({ negPrio := -3, url := "https://e.c", depth := 1 } : Entry).depth ∧
      ({ negPrio := -3, url := "https://e.c", depth := 1 } : Entry).depth ≤ MAX_DEPTH) :=
  ⟨C10_depth_one_dispatch.2.2.1 soloWorld "e.c" [0, 0] 0 "https://e.c" 1 (by decide),
   C10_depth_one_dispatch.2.2.2 soloWorld "e.c" [] _ (by decide)⟩


end APICrawler
